import Mathlib

/-!
# In-memory key-value server (`main.go`)

A shallow embedding of the HTTP handlers of `main.go` and of the route table
that `main` registers, followed by the properties of the store they implement.

Modelling decisions, all taken from the source:

* A Go `map[string]string` is a finite map with unique keys.  It is represented
  by an association list without duplicate keys; the order of the entries is
  one possible iteration order of `range`.  Every statement below is
  quantified over all such lists, hence over every iteration order.
* Go maps are reference values.  `Server.data` and the local `dataCopy` of
  `getDataHandler` are therefore references into a heap of map objects, and
  `make` allocates a fresh reference.
* `Server.requests` has Go type `int` (64 bits on the usual targets): a
  two's-complement integer whose increment wraps around.
* `s.mu.Lock()` / `s.mu.Unlock()` delimit a critical section; a critical
  section is one atomic transition of the state.
* `json.NewDecoder(..).Decode` is library code; it is a parameter
  `decode : String → Option GoMap` (`none` is a decoding error).
-/

namespace KVServer

/-! ## Go values -/

/-- The contents of a Go `map[string]string`. -/
abbrev GoMap := AList (fun _ : String => String)

/-- The contents of a Go `map[string]int` (used by `statsHandler`). -/
abbrev IntMap := AList (fun _ : String => Int)

/-- Smallest value of Go `int` (64 bit). -/
abbrev minInt : Int := -9223372036854775808

/-- Largest value of Go `int` (64 bit). -/
abbrev maxInt : Int := 9223372036854775807

/-- Two's-complement wrap-around of a mathematical integer into 64 bits. -/
def wrapInt (x : Int) : Int :=
  (x + 9223372036854775808) % 18446744073709551616 - 9223372036854775808

/-- A value of Go type `int`. -/
@[ext] structure GoInt where
  val : Int
  lo : minInt ≤ val
  hi : val ≤ maxInt

namespace GoInt

/-- The zero value of `int`. -/
def zero : GoInt := ⟨0, by decide, by decide⟩

/-- The statement `x++` on an `int`. -/
def incr (x : GoInt) : GoInt :=
  ⟨wrapInt (x.val + 1), by unfold wrapInt minInt; omega, by unfold wrapInt maxInt; omega⟩

end GoInt

/-! ## The heap of map objects -/

/-- A reference to a map object. -/
abbrev Ref := Nat

/-- The map objects of the program: `cell r` is the contents of the object at
reference `r`, and `next` is the first reference that is not allocated. -/
structure Heap where
  cell : Ref → GoMap
  next : Ref

namespace Heap

/-- The heap before anything is allocated. -/
def empty : Heap := ⟨fun _ => ∅, 0⟩

/-- The expression `make(map[string]string)`: a fresh empty map object. -/
def make (h : Heap) : Heap × Ref :=
  (⟨Function.update h.cell h.next ∅, h.next + 1⟩, h.next)

/-- The statement `m[k] = v`. -/
def assign (h : Heap) (m : Ref) (k v : String) : Heap :=
  ⟨Function.update h.cell m ((h.cell m).insert k v), h.next⟩

/-- The statement `delete(m, k)`. -/
def delete (h : Heap) (m : Ref) (k : String) : Heap :=
  ⟨Function.update h.cell m ((h.cell m).erase k), h.next⟩

/-- The second result of `_, exists := m[k]`. -/
def hasKey (h : Heap) (m : Ref) (k : String) : Bool :=
  ((h.cell m).lookup k).isSome

/-- The expression `len(m)`. -/
def len (h : Heap) (m : Ref) : Int :=
  ((h.cell m).entries.length : Int)

/-- The loop `for k, v := range src { dst[k] = v }`, where `src` lists the
entries in the order in which `range` yields them. -/
def assignAll (h : Heap) (dst : Ref) (src : List (Sigma fun _ : String => String)) : Heap :=
  src.foldl (fun acc e => acc.assign dst e.1 e.2) h

end Heap

/-! ## Strings -/

/-- Go `strings.HasPrefix`. -/
def HasPrefix (s pre : String) : Bool :=
  pre.data.isPrefixOf s.data

/-- Go `strings.TrimPrefix`: `s` without the leading `pre` if it has it, else `s`. -/
def TrimPrefix (s pre : String) : String :=
  if HasPrefix s pre then ⟨s.data.drop pre.data.length⟩ else s

/-! ## Requests and responses -/

/-- The parts of `*http.Request` the handlers read. -/
structure Request where
  method : String
  path : String
  body : String

/-- What a handler wrote after the header. -/
inductive Body where
  | empty
  | text (s : String)
  | jsonMap (m : GoMap)
  | jsonInts (m : IntMap)
  deriving DecidableEq

/-- What a handler wrote to its `http.ResponseWriter`. -/
structure Response where
  status : Nat
  contentType : Option String
  body : Body
  deriving DecidableEq

abbrev StatusOK : Nat := 200
abbrev StatusCreated : Nat := 201
abbrev StatusBadRequest : Nat := 400
abbrev StatusNotFound : Nat := 404

/-- Go `http.Error(w, msg, code)`: a plain-text reply with the given status. -/
def httpError (msg : String) (code : Nat) : Response :=
  { status := code, contentType := some "text/plain; charset=utf-8", body := Body.text (msg ++ "\n") }

/-! ## The server -/

/-- The struct `Server`.  `mu` is represented by the atomicity of the
transitions; `shutdownCh` is never read by a handler. -/
structure Server where
  data : Ref
  requests : GoInt

/-- The state of the program: the heap and the one `Server` value. -/
structure State where
  heap : Heap
  srv : Server

namespace State

/-- The contents of the store, `s.data`. -/
def store (σ : State) : GoMap := σ.heap.cell σ.srv.data

/-- The value of the counter, `s.requests`. -/
def counter (σ : State) : Int := σ.srv.requests.val

/-- The map object of the server is allocated. -/
def WF (σ : State) : Prop := σ.srv.data < σ.heap.next

instance (σ : State) : Decidable σ.WF := by unfold WF; infer_instance

end State

/-- The state after the holder of the reference `ref` has changed the map
object it refers to, in whatever way: its contents are now `m`. -/
def State.mutate (σ : State) (ref : Ref) (m : GoMap) : State :=
  { heap := ⟨Function.update σ.heap.cell ref m, σ.heap.next⟩, srv := σ.srv }

/-- The function `NewServer`, run on the empty heap. -/
def NewServer : State :=
  let (h, data) := Heap.empty.make
  { heap := h, srv := { data := data, requests := GoInt.zero } }

/-- The critical section of `postDataHandler` (lines 32-37), on a decoded body. -/
def postDataLocked (σ : State) (body : GoMap) : State :=
  let h := σ.heap.assignAll σ.srv.data body.entries
  { heap := h, srv := { data := σ.srv.data, requests := σ.srv.requests.incr } }

/-- The method `postDataHandler`. -/
def postDataHandler (decode : String → Option GoMap) (σ : State) (r : Request) :
    State × Response :=
  match decode r.body with
  | none => (σ, httpError "Invalid JSON" StatusBadRequest)
  | some body =>
    (postDataLocked σ body, { status := StatusCreated, contentType := none, body := Body.empty })

/-- The critical section of `getDataHandler` (lines 42-48); the result is the
new state and the reference held by the local variable `dataCopy`. -/
def getDataLocked (σ : State) : State × Ref :=
  let (h1, dataCopy) := σ.heap.make
  let h2 := h1.assignAll dataCopy (h1.cell σ.srv.data).entries
  ({ heap := h2, srv := { data := σ.srv.data, requests := σ.srv.requests.incr } }, dataCopy)

/-- The part of `getDataHandler` after the lock is released (lines 50-51): it
encodes whatever `dataCopy` refers to at that moment. -/
def getDataEncode (σ : State) (dataCopy : Ref) : Response :=
  { status := StatusOK, contentType := some "application/json",
    body := Body.jsonMap (σ.heap.cell dataCopy) }

/-- The method `getDataHandler`, run without interruption. -/
def getDataHandler (σ : State) (_r : Request) : State × Response :=
  let (σ1, dataCopy) := getDataLocked σ
  (σ1, getDataEncode σ1 dataCopy)

/-- The method `statsHandler`. -/
def statsHandler (σ : State) (_r : Request) : State × Response :=
  let stats : IntMap :=
    AList.insert "data_size" (σ.heap.len σ.srv.data)
      (AList.insert "requests" σ.srv.requests.val ∅)
  (σ, { status := StatusOK, contentType := some "application/json", body := Body.jsonInts stats })

/-- The method `deleteDataHandler`. -/
def deleteDataHandler (σ : State) (r : Request) : State × Response :=
  let key := TrimPrefix r.path "/data/"
  let (h, resp) :=
    if σ.heap.hasKey σ.srv.data key then
      (σ.heap.delete σ.srv.data key,
        ({ status := StatusOK, contentType := none, body := Body.empty } : Response))
    else
      (σ.heap, httpError "Key not found" StatusNotFound)
  ({ heap := h, srv := { data := σ.srv.data, requests := σ.srv.requests.incr } }, resp)

/-! ## Sequences of requests -/

/-- One request served by a handler. -/
inductive Call where
  | post (r : Request)
  | get (r : Request)
  | delete (r : Request)
  | stats (r : Request)

/-- The handler that serves a call. -/
def Call.run (decode : String → Option GoMap) (σ : State) : Call → State × Response
  | Call.post r => postDataHandler decode σ r
  | Call.get r => getDataHandler σ r
  | Call.delete r => deleteDataHandler σ r
  | Call.stats r => statsHandler σ r

/-- The calls that reach `s.requests++`: a `postDataHandler` whose body decodes,
every `getDataHandler` and every `deleteDataHandler`. -/
def Call.counted (decode : String → Option GoMap) : Call → Bool
  | Call.post r => (decode r.body).isSome
  | Call.get _ => true
  | Call.delete _ => true
  | Call.stats _ => false

/-- The state after serving the calls one after another, each as one atomic step. -/
def runCalls (decode : String → Option GoMap) (σ : State) (cs : List Call) : State :=
  cs.foldl (fun s c => (c.run decode s).1) σ

/-! ## The routes registered by `main` -/

/-- The handlers that `main` registers with `http.HandleFunc`. -/
inductive Route where
  | data
  | stats
  deriving DecidableEq

/-- The registrations of `main` (lines 95-103), pattern and handler.  Both
patterns are exact, so at most one of them matches a path. -/
def routes : List (String × Route) :=
  [("/data", Route.data), ("/stats", Route.stats)]

/-- The matching rule of `http.ServeMux`: a pattern that ends in a slash names
a subtree and matches every path below it; any other pattern matches only the
path equal to it. -/
def patternMatches (pattern path : String) : Bool :=
  if pattern.data.getLast? = some '/' then HasPrefix path pattern else decide (pattern = path)

/-- The body of a registered handler. -/
def Route.handle (decode : String → Option GoMap) (σ : State) (r : Request) :
    Route → State × Response
  | Route.data =>
    if r.method = "POST" then postDataHandler decode σ r else getDataHandler σ r
  | Route.stats => statsHandler σ r

/-- Dispatch of a request by the default `ServeMux` with the routes of `main`;
a path that no pattern matches is answered by `http.NotFound`.  The path is
taken in canonical form: the redirect with which the mux answers a path that
has empty, dot or dot-dot segments runs no handler either and is left out. -/
def serve (decode : String → Option GoMap) (σ : State) (r : Request) : State × Response :=
  match routes.find? (fun p => patternMatches p.1 r.path) with
  | some p => p.2.handle decode σ r
  | none => (σ, httpError "404 page not found" StatusNotFound)

/-! ## Concrete states and inputs used below -/

/-- The state of a fresh server whose counter holds the largest `int`. -/
def saturated : State :=
  { heap := NewServer.heap,
    srv := { data := NewServer.srv.data, requests := ⟨maxInt, by decide, by decide⟩ } }

/-- The mapping with the two entries a ↦ 1 and b ↦ 2. -/
def abMap : GoMap := AList.insert "b" "2" (AList.insert "a" "1" ∅)

/-- A decoder that yields `abMap` for every body. -/
def decodeAB : String → Option GoMap := fun _ => some abMap

/-- A decoder that yields the one-entry mapping a ↦ 9 for every body. -/
def decodeA9 : String → Option GoMap := fun _ => some (AList.singleton "a" "9")

/-- A decoder that rejects every body. -/
def decodeNone : String → Option GoMap := fun _ => none

/-- A decoder that yields the empty mapping for every body. -/
def decodeEmpty : String → Option GoMap := fun _ => some ∅

/-- The example scenario, step 1: post of `abMap` on a fresh server. -/
def scenarioPost : State × Response :=
  postDataHandler decodeAB NewServer ⟨"POST", "/data", ""⟩

/-- The example scenario, step 2: get. -/
def scenarioGet : State × Response :=
  getDataHandler scenarioPost.1 ⟨"GET", "/data", ""⟩

/-- The example scenario, step 3: delete of the key "a". -/
def scenarioDeleteA : State × Response :=
  deleteDataHandler scenarioGet.1 ⟨"DELETE", "/data/a", ""⟩

/-- The example scenario, step 4: stats. -/
def scenarioStats : State × Response :=
  statsHandler scenarioDeleteA.1 ⟨"GET", "/stats", ""⟩

/-- The example scenario, step 5: delete of the key "z". -/
def scenarioDeleteZ : State × Response :=
  deleteDataHandler scenarioStats.1 ⟨"DELETE", "/data/z", ""⟩

/-- A decoder that yields a ↦ 1 for the body "first" and b ↦ 2 for any other. -/
def decodeSplit : String → Option GoMap := fun raw =>
  if raw = "first" then some (AList.singleton "a" "1") else some (AList.singleton "b" "2")

/-! ## Auxiliary functions on mappings -/

/-- The map obtained from `m` by the assignments `m[k] = v` for the entries of
`src`, in order. -/
def insertAll (m : GoMap) (src : List (Sigma fun _ : String => String)) : GoMap :=
  src.foldl (fun acc e => acc.insert e.1 e.2) m

/-- The number of entries of `src` whose key is not a key of `m`. -/
def countNew (m : GoMap) (src : List (Sigma fun _ : String => String)) : Nat :=
  (src.filter (fun e => decide (e.1 ∉ m.keys))).length

/-- The set of keys that occur in at least one of the mappings. -/
def allKeys (bs : List GoMap) : Finset String :=
  bs.foldr (fun b acc => b.keys.toFinset ∪ acc) ∅

/-- The map obtained from `m` by assigning the entries of each mapping of `bs`
in turn. -/
def unionAll (m : GoMap) (bs : List GoMap) : GoMap :=
  bs.foldl (fun acc b => insertAll acc b.entries) m

/-! ## Basic facts about the heap operations -/

theorem insertAll_nil (m : GoMap) : insertAll m [] = m := rfl

theorem insertAll_cons (m : GoMap) (e : Sigma fun _ : String => String)
    (src : List (Sigma fun _ : String => String)) :
    insertAll m (e :: src) = insertAll (m.insert e.1 e.2) src := rfl

theorem Heap.assignAll_next (h : Heap) (dst : Ref) (src : List (Sigma fun _ : String => String)) :
    (h.assignAll dst src).next = h.next := by
  induction src generalizing h with
  | nil => rfl
  | cons e src ih =>
    show ((h.assign dst e.1 e.2).assignAll dst src).next = h.next
    rw [ih]; rfl

theorem Heap.assignAll_cell_ne (h : Heap) (dst : Ref)
    (src : List (Sigma fun _ : String => String)) (r : Ref) (hr : r ≠ dst) :
    (h.assignAll dst src).cell r = h.cell r := by
  induction src generalizing h with
  | nil => rfl
  | cons e src ih =>
    show ((h.assign dst e.1 e.2).assignAll dst src).cell r = h.cell r
    rw [ih]
    simp [Heap.assign, Function.update_noteq hr]

theorem Heap.assignAll_cell_self (h : Heap) (dst : Ref)
    (src : List (Sigma fun _ : String => String)) :
    (h.assignAll dst src).cell dst = insertAll (h.cell dst) src := by
  induction src generalizing h with
  | nil => rfl
  | cons e src ih =>
    show ((h.assign dst e.1 e.2).assignAll dst src).cell dst = _
    rw [ih, insertAll_cons]
    simp [Heap.assign]

theorem lookup_insertAll (m : GoMap) (src : List (Sigma fun _ : String => String))
    (nd : src.NodupKeys) (k : String) :
    (insertAll m src).lookup k = (src.dlookup k).orElse (fun _ => m.lookup k) := by
  induction src generalizing m with
  | nil => simp [insertAll_nil]
  | cons e src ih =>
    rw [insertAll_cons, ih _ (List.nodupKeys_cons.1 nd).2]
    by_cases hk : k = e.1
    · subst hk
      have hnot : e.1 ∉ src.keys := (List.nodupKeys_cons.1 nd).1
      rw [List.dlookup_eq_none.2 hnot]
      obtain ⟨a, b⟩ := e
      simp [AList.lookup_insert, List.dlookup_cons_eq]
    · rw [AList.lookup_insert_ne hk, List.dlookup_cons_ne _ _ hk]

theorem mem_insertAll (m : GoMap) (src : List (Sigma fun _ : String => String)) (k : String) :
    k ∈ insertAll m src ↔ k ∈ m ∨ k ∈ src.keys := by
  induction src generalizing m with
  | nil => simp [insertAll_nil]
  | cons e src ih =>
    rw [insertAll_cons, ih, AList.mem_insert, List.keys_cons, List.mem_cons]
    tauto

theorem length_entries_eq_keys (m : GoMap) : m.entries.length = m.keys.length := by
  simp [AList.keys, List.keys]

theorem length_insert (m : GoMap) (k v : String) :
    (m.insert k v).entries.length =
      if k ∈ m.keys then m.entries.length else m.entries.length + 1 := by
  rw [length_entries_eq_keys, AList.keys_insert, List.length_cons, List.length_erase,
    length_entries_eq_keys]
  split
  · rename_i hk
    have : 0 < m.keys.length := List.length_pos_of_mem hk
    omega
  · rfl

theorem length_erase (m : GoMap) (k : String) :
    (m.erase k).entries.length =
      if k ∈ m.keys then m.entries.length - 1 else m.entries.length := by
  rw [length_entries_eq_keys, AList.keys_erase, List.length_erase, length_entries_eq_keys]

theorem length_insertAll (m : GoMap) (src : List (Sigma fun _ : String => String))
    (nd : src.NodupKeys) :
    (insertAll m src).entries.length = m.entries.length + countNew m src := by
  induction src generalizing m with
  | nil => simp [insertAll_nil, countNew]
  | cons e src ih =>
    have hnd := List.nodupKeys_cons.1 nd
    rw [insertAll_cons, ih _ hnd.2, length_insert]
    have hrest : countNew (m.insert e.1 e.2) src = countNew m src := by
      unfold countNew
      congr 1
      apply List.filter_congr
      intro x hx
      have hne : x.1 ≠ e.1 := by
        intro h
        exact hnd.1 (h ▸ List.mem_keys_of_mem hx)
      have : x.1 ∈ (m.insert e.1 e.2).keys ↔ x.1 ∈ m.keys := by
        rw [← AList.mem_keys, ← AList.mem_keys, AList.mem_insert]
        simp [hne]
      exact decide_eq_decide.2 (not_congr this)
    rw [hrest]
    by_cases hk : e.1 ∈ m.keys
    · simp [countNew, List.filter_cons, hk]
    · simp [countNew, List.filter_cons, hk]; omega

theorem keys_toFinset_insertAll (m : GoMap) (src : List (Sigma fun _ : String => String)) :
    (insertAll m src).keys.toFinset = m.keys.toFinset ∪ src.keys.toFinset := by
  ext k
  simp only [List.mem_toFinset, Finset.mem_union, ← AList.mem_keys]
  exact mem_insertAll m src k

theorem card_keys_toFinset (m : GoMap) : m.keys.toFinset.card = m.entries.length := by
  rw [List.toFinset_card_of_nodup m.keys_nodup, length_entries_eq_keys]

/-! ## Facts about the handlers -/

theorem postDataLocked_store (σ : State) (body : GoMap) :
    (postDataLocked σ body).store = insertAll σ.store body.entries := by
  simp [postDataLocked, State.store, Heap.assignAll_cell_self]

theorem postDataLocked_counter (σ : State) (body : GoMap) :
    (postDataLocked σ body).counter = wrapInt (σ.counter + 1) := rfl

theorem wrapInt_of_le (x : Int) (lo : minInt ≤ x) (hi : x ≤ maxInt) : wrapInt x = x := by
  unfold wrapInt
  unfold minInt at lo
  unfold maxInt at hi
  omega

theorem incr_val (x : GoInt) (h : x.val < maxInt) : x.incr.val = x.val + 1 := by
  have := x.lo
  exact wrapInt_of_le _ (by unfold minInt at *; omega) (by unfold maxInt at *; omega)

theorem HasPrefix_append (pre k : String) : HasPrefix (pre ++ k) pre = true := by
  simp [HasPrefix, String.data_append]

theorem TrimPrefix_append (pre k : String) : TrimPrefix (pre ++ k) pre = k := by
  simp [TrimPrefix, HasPrefix_append, String.data_append]

theorem statsHandler_state (σ : State) (r : Request) : (statsHandler σ r).1 = σ := rfl

theorem deleteDataHandler_present (σ : State) (r : Request) (k : String)
    (hp : r.path = "/data/" ++ k) (hk : k ∈ σ.store) :
    (deleteDataHandler σ r).1.store = σ.store.erase k ∧
    (deleteDataHandler σ r).2 = { status := StatusOK, contentType := none, body := Body.empty } := by
  have h : σ.heap.hasKey σ.srv.data k = true := by
    simpa [Heap.hasKey, AList.lookup_isSome] using hk
  simp [deleteDataHandler, hp, TrimPrefix_append, h, State.store, Heap.delete]

theorem deleteDataHandler_absent (σ : State) (r : Request) (k : String)
    (hp : r.path = "/data/" ++ k) (hk : k ∉ σ.store) :
    (deleteDataHandler σ r).1.store = σ.store ∧
    (deleteDataHandler σ r).2 = httpError "Key not found" StatusNotFound := by
  have h : σ.heap.hasKey σ.srv.data k = false := by
    have : ¬ ((σ.heap.cell σ.srv.data).lookup k).isSome = true := by
      rw [AList.lookup_isSome]; exact hk
    simpa [Heap.hasKey] using this
  simp [deleteDataHandler, hp, TrimPrefix_append, h, State.store]

theorem deleteDataHandler_counter (σ : State) (r : Request) :
    (deleteDataHandler σ r).1.counter = wrapInt (σ.counter + 1) := rfl

theorem getDataHandler_counter (σ : State) (r : Request) :
    (getDataHandler σ r).1.counter = wrapInt (σ.counter + 1) := rfl

theorem postDataHandler_decoded (decode : String → Option GoMap) (σ : State) (r : Request)
    (body : GoMap) (hdec : decode r.body = some body) :
    postDataHandler decode σ r =
      (postDataLocked σ body, { status := StatusCreated, contentType := none, body := Body.empty }) := by
  simp [postDataHandler, hdec]

theorem lookup_insertAll_of_mem (m body : GoMap) (k v : String) (h : body.lookup k = some v) :
    (insertAll m body.entries).lookup k = some v := by
  rw [lookup_insertAll m body.entries body.nodupKeys k]
  have h2 : body.entries.dlookup k = some v := h
  rw [h2]; rfl

theorem lookup_insertAll_of_not_mem (m body : GoMap) (k : String) (h : k ∉ body) :
    (insertAll m body.entries).lookup k = m.lookup k := by
  rw [lookup_insertAll m body.entries body.nodupKeys k]
  have h2 : body.entries.dlookup k = none := AList.lookup_eq_none.2 h
  rw [h2]; rfl

theorem countNew_eq_zero (m : GoMap) (src : List (Sigma fun _ : String => String))
    (h : ∀ k ∈ src.keys, k ∈ m.keys) : countNew m src = 0 := by
  unfold countNew
  rw [List.length_eq_zero, List.filter_eq_nil_iff]
  intro e he
  simp [h e.1 (List.mem_keys_of_mem he)]

theorem getDataLocked_ref (σ : State) : (getDataLocked σ).2 = σ.heap.next := rfl

theorem getDataLocked_next (σ : State) : (getDataLocked σ).1.heap.next = σ.heap.next + 1 := by
  simp [getDataLocked, Heap.make, Heap.assignAll_next]

theorem getDataLocked_data (σ : State) : (getDataLocked σ).1.srv.data = σ.srv.data := rfl

theorem getDataLocked_copy (σ : State) (hwf : σ.WF) :
    (getDataLocked σ).1.heap.cell (getDataLocked σ).2 = insertAll ∅ σ.store.entries := by
  have hne : σ.srv.data ≠ σ.heap.next := Nat.ne_of_lt hwf
  simp [getDataLocked, Heap.make, Heap.assignAll_cell_self, State.store,
    Function.update_noteq hne]

theorem getDataLocked_cell_ne (σ : State) (r : Ref) (hr : r ≠ σ.heap.next) :
    (getDataLocked σ).1.heap.cell r = σ.heap.cell r := by
  simp [getDataLocked, Heap.make, Heap.assignAll_cell_ne _ _ _ _ hr, Function.update_noteq hr]

theorem getDataLocked_store (σ : State) (hwf : σ.WF) : (getDataLocked σ).1.store = σ.store :=
  getDataLocked_cell_ne σ σ.srv.data (Nat.ne_of_lt hwf)

theorem lookup_insertAll_empty (m : GoMap) (k : String) :
    (insertAll ∅ m.entries).lookup k = m.lookup k := by
  rw [lookup_insertAll ∅ m.entries m.nodupKeys k]
  show (m.lookup k).orElse _ = _
  cases m.lookup k <;> rfl

theorem perm_insertAll_empty (m : GoMap) : (insertAll ∅ m.entries).entries.Perm m.entries := by
  apply List.lookup_ext (insertAll ∅ m.entries).nodupKeys m.nodupKeys
  intro k v
  have := lookup_insertAll_empty m k
  unfold AList.lookup at this
  rw [this]

theorem postDataLocked_frame (σ : State) (body : GoMap) :
    (postDataLocked σ body).srv.data = σ.srv.data ∧
    (postDataLocked σ body).heap.next = σ.heap.next ∧
    ∀ r, r ≠ σ.srv.data → (postDataLocked σ body).heap.cell r = σ.heap.cell r :=
  ⟨rfl, Heap.assignAll_next _ _ _, fun r hr => Heap.assignAll_cell_ne _ _ _ r hr⟩

theorem deleteDataHandler_frame (σ : State) (r : Request) :
    (deleteDataHandler σ r).1.srv.data = σ.srv.data ∧
    (deleteDataHandler σ r).1.heap.next = σ.heap.next ∧
    ∀ x, x ≠ σ.srv.data → (deleteDataHandler σ r).1.heap.cell x = σ.heap.cell x := by
  unfold deleteDataHandler
  by_cases h : σ.heap.hasKey σ.srv.data (TrimPrefix r.path "/data/") = true
  · simp only [h, if_true]
    refine ⟨trivial, rfl, fun x hx => ?_⟩
    simp [Heap.delete, Function.update_noteq hx]
  · simp [h]

theorem Call.run_frame (decode : String → Option GoMap) (σ : State) (c : Call) :
    (c.run decode σ).1.srv.data = σ.srv.data ∧
    σ.heap.next ≤ (c.run decode σ).1.heap.next ∧
    ∀ x, x < σ.heap.next → x ≠ σ.srv.data → (c.run decode σ).1.heap.cell x = σ.heap.cell x := by
  cases c with
  | post r =>
    show (postDataHandler decode σ r).1.srv.data = _ ∧ _ ≤ (postDataHandler decode σ r).1.heap.next ∧
      ∀ x, _ → _ → (postDataHandler decode σ r).1.heap.cell x = _
    cases hdec : decode r.body with
    | none => simp [postDataHandler, hdec]
    | some body =>
      rw [postDataHandler_decoded decode σ r body hdec]
      obtain ⟨h1, h2, h3⟩ := postDataLocked_frame σ body
      exact ⟨h1, Nat.le_of_eq h2.symm, fun x _ hx => h3 x hx⟩
  | get r =>
    refine ⟨rfl, ?_, fun x hx _ => ?_⟩
    · show σ.heap.next ≤ (getDataLocked σ).1.heap.next
      rw [getDataLocked_next]; exact Nat.le_succ _
    · exact getDataLocked_cell_ne σ x (Nat.ne_of_lt hx)
  | delete r =>
    obtain ⟨h1, h2, h3⟩ := deleteDataHandler_frame σ r
    exact ⟨h1, Nat.le_of_eq h2.symm, fun x _ hx => h3 x hx⟩
  | stats r => exact ⟨rfl, Nat.le_refl _, fun _ _ _ => rfl⟩

theorem runCalls_cons (decode : String → Option GoMap) (σ : State) (c : Call) (cs : List Call) :
    runCalls decode σ (c :: cs) = runCalls decode (c.run decode σ).1 cs := rfl

theorem runCalls_frame (decode : String → Option GoMap) (σ : State) (cs : List Call) :
    (runCalls decode σ cs).srv.data = σ.srv.data ∧
    σ.heap.next ≤ (runCalls decode σ cs).heap.next ∧
    ∀ x, x < σ.heap.next → x ≠ σ.srv.data → (runCalls decode σ cs).heap.cell x = σ.heap.cell x := by
  induction cs generalizing σ with
  | nil => exact ⟨rfl, Nat.le_refl _, fun _ _ _ => rfl⟩
  | cons c cs ih =>
    rw [runCalls_cons]
    obtain ⟨h1, h2, h3⟩ := Call.run_frame decode σ c
    obtain ⟨i1, i2, i3⟩ := ih (c.run decode σ).1
    refine ⟨i1.trans h1, Nat.le_trans h2 i2, fun x hx hne => ?_⟩
    rw [i3 x (Nat.lt_of_lt_of_le hx h2) (by rw [h1]; exact hne), h3 x hx hne]

theorem runCalls_WF (decode : String → Option GoMap) (σ : State) (cs : List Call)
    (hwf : σ.WF) : (runCalls decode σ cs).WF := by
  obtain ⟨h1, h2, _⟩ := runCalls_frame decode σ cs
  show (runCalls decode σ cs).srv.data < (runCalls decode σ cs).heap.next
  rw [h1]
  exact Nat.lt_of_lt_of_le hwf h2

theorem NewServer_WF : NewServer.WF := by decide

theorem Call.run_counter (decode : String → Option GoMap) (σ : State) (c : Call) :
    (c.run decode σ).1.counter =
      if c.counted decode = true then wrapInt (σ.counter + 1) else σ.counter := by
  cases c with
  | post r =>
    show (postDataHandler decode σ r).1.counter = _
    cases hdec : decode r.body with
    | none => simp [postDataHandler, hdec, Call.counted]
    | some body =>
      rw [postDataHandler_decoded decode σ r body hdec]
      simp [Call.counted, hdec, postDataLocked_counter]
  | get r => rfl
  | delete r => rfl
  | stats r => rfl

theorem wrapInt_wrapInt_add (x n : Int) : wrapInt (wrapInt x + n) = wrapInt (x + n) := by
  unfold wrapInt; omega

theorem runCalls_counter (decode : String → Option GoMap) (σ : State) (cs : List Call) :
    (runCalls decode σ cs).counter
      = wrapInt (σ.counter + (cs.countP (fun c => c.counted decode) : Nat)) := by
  induction cs generalizing σ with
  | nil =>
    simp only [List.countP_nil, Nat.cast_zero, Int.add_zero]
    exact (wrapInt_of_le _ σ.srv.requests.lo σ.srv.requests.hi).symm
  | cons c cs ih =>
    rw [runCalls_cons, ih, Call.run_counter, List.countP_cons]
    by_cases hc : c.counted decode = true
    · simp only [hc, if_true, Nat.cast_add, Nat.cast_one]
      rw [wrapInt_wrapInt_add]
      congr 1; omega
    · simp [hc]

theorem mutate_WF (σ : State) (ref : Ref) (m : GoMap) (hwf : σ.WF) : (σ.mutate ref m).WF := hwf

theorem mutate_store (σ : State) (ref : Ref) (m : GoMap) (hne : σ.srv.data ≠ ref) :
    (σ.mutate ref m).store = σ.store := by
  simp [State.mutate, State.store, Function.update_noteq hne]

theorem getDataHandler_reply (σ : State) (r : Request) (hwf : σ.WF) :
    (getDataHandler σ r).2 =
      { status := StatusOK, contentType := some "application/json",
        body := Body.jsonMap (insertAll ∅ σ.store.entries) } := by
  show getDataEncode (getDataLocked σ).1 (getDataLocked σ).2 = _
  unfold getDataEncode
  rw [getDataLocked_copy σ hwf]

theorem unionAll_cons (m b : GoMap) (bs : List GoMap) :
    unionAll m (b :: bs) = unionAll (insertAll m b.entries) bs := rfl

theorem mem_unionAll (m : GoMap) (bs : List GoMap) (k : String) :
    k ∈ unionAll m bs ↔ k ∈ m ∨ ∃ b ∈ bs, k ∈ b := by
  induction bs generalizing m with
  | nil => simp [unionAll]
  | cons b bs ih =>
    rw [unionAll_cons, ih, mem_insertAll]
    simp only [List.mem_cons, exists_eq_or_imp, ← AList.mem_keys]
    tauto

theorem mem_allKeys (bs : List GoMap) (k : String) :
    k ∈ allKeys bs ↔ ∃ b ∈ bs, k ∈ b := by
  induction bs with
  | nil => simp [allKeys]
  | cons b bs ih =>
    have hstep : allKeys (b :: bs) = b.keys.toFinset ∪ allKeys bs := rfl
    rw [hstep, Finset.mem_union, ih, List.mem_toFinset, ← AList.mem_keys]
    simp only [List.mem_cons, exists_eq_or_imp]

theorem allKeys_perm (bs cs : List GoMap) (h : bs.Perm cs) : allKeys bs = allKeys cs := by
  ext k
  rw [mem_allKeys, mem_allKeys]
  constructor
  · rintro ⟨b, hb, hk⟩; exact ⟨b, h.mem_iff.1 hb, hk⟩
  · rintro ⟨b, hb, hk⟩; exact ⟨b, h.mem_iff.2 hb, hk⟩

theorem keys_toFinset_unionAll (m : GoMap) (bs : List GoMap) :
    (unionAll m bs).keys.toFinset = m.keys.toFinset ∪ allKeys bs := by
  ext k
  rw [List.mem_toFinset, Finset.mem_union, List.mem_toFinset, mem_allKeys, ← AList.mem_keys,
    ← AList.mem_keys]
  exact mem_unionAll m bs k

theorem lookup_unionAll (bs : List GoMap) (hd : bs.Pairwise AList.Disjoint) (m : GoMap)
    (k v : String) :
    (unionAll m bs).lookup k = some v ↔
      (∃ b ∈ bs, b.lookup k = some v) ∨ ((∀ b ∈ bs, k ∉ b) ∧ m.lookup k = some v) := by
  induction bs generalizing m with
  | nil => simp [unionAll]
  | cons b bs ih =>
    obtain ⟨hb, hrest⟩ := List.pairwise_cons.1 hd
    rw [unionAll_cons, ih hrest]
    have hnone : ∀ c : GoMap, k ∉ c → c.lookup k ≠ some v := by
      intro c hc h
      rw [AList.lookup_eq_none.2 hc] at h
      exact Option.noConfusion h
    by_cases hk : k ∈ b
    · have hfree : ∀ c ∈ bs, k ∉ c := fun c hc hkc =>
        hb c hc k (AList.mem_keys.1 hk) (AList.mem_keys.1 hkc)
      obtain ⟨w, hw⟩ := Option.isSome_iff_exists.1 (AList.lookup_isSome.2 hk)
      rw [lookup_insertAll_of_mem m b k w hw]
      constructor
      · rintro (⟨c, hc, hcv⟩ | ⟨_, hwv⟩)
        · exact absurd hcv (hnone c (hfree c hc))
        · exact Or.inl ⟨b, List.mem_cons_self _ _, hw.trans hwv⟩
      · rintro (⟨c, hc, hcv⟩ | ⟨hall, _⟩)
        · rcases List.mem_cons.1 hc with rfl | hc
          · exact Or.inr ⟨hfree, hw.symm.trans hcv⟩
          · exact absurd hcv (hnone c (hfree c hc))
        · exact absurd hk (hall b (List.mem_cons_self _ _))
    · rw [lookup_insertAll_of_not_mem m b k hk]
      constructor
      · rintro (⟨c, hc, hcv⟩ | ⟨hall, hm⟩)
        · exact Or.inl ⟨c, List.mem_cons_of_mem _ hc, hcv⟩
        · refine Or.inr ⟨fun c hc => ?_, hm⟩
          rcases List.mem_cons.1 hc with rfl | hc
          · exact hk
          · exact hall c hc
      · rintro (⟨c, hc, hcv⟩ | ⟨hall, hm⟩)
        · rcases List.mem_cons.1 hc with rfl | hc
          · exact absurd hcv (hnone c hk)
          · exact Or.inl ⟨c, hc, hcv⟩
        · exact Or.inr ⟨fun c hc => hall c (List.mem_cons_of_mem _ hc), hm⟩

theorem countNew_eq_length (m : GoMap) (src : List (Sigma fun _ : String => String))
    (h : ∀ k ∈ src.keys, k ∉ m.keys) : countNew m src = src.length := by
  unfold countNew
  rw [List.filter_eq_self.2]
  intro e he
  simp [h e.1 (List.mem_keys_of_mem he)]

theorem length_unionAll (bs : List GoMap) (hd : bs.Pairwise AList.Disjoint) (m : GoMap)
    (hm : ∀ b ∈ bs, ∀ k ∈ b.keys, k ∉ m.keys) :
    (unionAll m bs).entries.length
      = m.entries.length + (bs.map (fun b => b.entries.length)).sum := by
  induction bs generalizing m with
  | nil => simp [unionAll]
  | cons b bs ih =>
    obtain ⟨hb, hrest⟩ := List.pairwise_cons.1 hd
    rw [unionAll_cons, ih hrest, length_insertAll _ _ b.nodupKeys,
      countNew_eq_length _ _ (hm b (List.mem_cons_self _ _)), List.map_cons, List.sum_cons,
      Nat.add_assoc]
    intro c hc k hkc hk
    rcases (mem_insertAll m b.entries k).1 (AList.mem_keys.2 hk) with h | h
    · exact hm c (List.mem_cons_of_mem _ hc) k hkc (AList.mem_keys.1 h)
    · exact hb c hc k h hkc

theorem disjoint_symmetric : Symmetric (AList.Disjoint : GoMap → GoMap → Prop) :=
  fun _ _ h k hk hk2 => h k hk2 hk

theorem runCalls_post (decode : String → Option GoMap) (order : List GoMap)
    (reqs : List Request) (σ : State)
    (hdec : reqs.map (fun q => decode q.body) = order.map some) :
    runCalls decode σ (reqs.map Call.post) = order.foldl postDataLocked σ := by
  induction reqs generalizing order σ with
  | nil =>
    cases order with
    | nil => rfl
    | cons b bs => simp at hdec
  | cons q qs ih =>
    cases order with
    | nil => simp at hdec
    | cons b bs =>
      simp only [List.map_cons, List.cons.injEq] at hdec
      rw [List.map_cons, runCalls_cons, List.foldl_cons]
      show runCalls decode (postDataHandler decode σ q).1 _ = _
      rw [postDataHandler_decoded decode σ q b hdec.1]
      exact ih bs _ hdec.2

theorem foldl_postDataLocked_store (order : List GoMap) (σ : State) :
    (order.foldl postDataLocked σ).store = unionAll σ.store order := by
  induction order generalizing σ with
  | nil => rfl
  | cons b bs ih => rw [List.foldl_cons, ih, postDataLocked_store, unionAll_cons]

theorem Call.counted_post_of_decoded (decode : String → Option GoMap) (order : List GoMap)
    (reqs : List Request) (hdec : reqs.map (fun q => decode q.body) = order.map some) :
    ∀ c ∈ reqs.map Call.post, c.counted decode = true := by
  induction reqs generalizing order with
  | nil => simp
  | cons q qs ih =>
    cases order with
    | nil => simp at hdec
    | cons b bs =>
      simp only [List.map_cons, List.cons.injEq] at hdec
      intro c hc
      rcases List.mem_cons.1 hc with rfl | hc
      · simp [Call.counted, hdec.1]
      · exact ih bs hdec.2 c hc

/-! ## The claims -/

/-- C9: when decoding the body of `postDataHandler` fails, the handler answers
400 with the text "Invalid JSON", and the whole state (hence the store mapping
and the request counter) is exactly what it was before the call. -/
theorem postDataHandler_invalid (decode : String → Option GoMap) (σ : State) (r : Request)
    (hdec : decode r.body = none) :
    (postDataHandler decode σ r).2 = httpError "Invalid JSON" StatusBadRequest ∧
    (postDataHandler decode σ r).2.status = 400 ∧
    (postDataHandler decode σ r).1 = σ ∧
    (postDataHandler decode σ r).1.store = σ.store ∧
    (postDataHandler decode σ r).1.counter = σ.counter := by
  simp [postDataHandler, hdec, httpError]

theorem postDataHandler_invalid_witness :
    (postDataHandler decodeNone saturated ⟨"POST", "/data", "not json"⟩).2.status = 400 ∧
    (postDataHandler decodeNone saturated ⟨"POST", "/data", "not json"⟩).1.counter
      = saturated.counter :=
  ⟨(postDataHandler_invalid decodeNone saturated ⟨"POST", "/data", "not json"⟩ rfl).2.1,
   (postDataHandler_invalid decodeNone saturated ⟨"POST", "/data", "not json"⟩ rfl).2.2.2.2⟩

/-- C4: `statsHandler` reports a JSON object with exactly the two fields
`requests`, the current counter, and `data_size`, the current number of keys,
both read from the state it was called in, and it returns the state unchanged
(so neither the counter nor the mapping changes). -/
theorem statsHandler_reads (σ : State) (r : Request) :
    (statsHandler σ r).1 = σ ∧
    (statsHandler σ r).2.status = 200 ∧
    ∃ stats : IntMap, (statsHandler σ r).2.body = Body.jsonInts stats ∧
      stats.lookup "requests" = some σ.counter ∧
      stats.lookup "data_size" = some (σ.store.keys.length : Int) ∧
      stats.keys.length = 2 := by
  refine ⟨rfl, rfl, _, rfl, ?_, ?_, ?_⟩
  · rw [AList.lookup_insert_ne (by decide), AList.lookup_insert]; rfl
  · rw [AList.lookup_insert, Heap.len, length_entries_eq_keys]; rfl
  · simp [AList.keys_insert]

/-- C3: `deleteDataHandler` on the path "/data/" followed by `k`.  If `k` is in
the store, the reply has status 200, `k` is absent afterwards, every other key
keeps its value and the size decreases by exactly 1.  If `k` is not in the
store, the reply has status 404 and the store mapping and its size are as
before. -/
theorem deleteDataHandler_delete (σ : State) (method body k : String) :
    (k ∈ σ.store →
      (deleteDataHandler σ ⟨method, "/data/" ++ k, body⟩).2.status = 200 ∧
      k ∉ (deleteDataHandler σ ⟨method, "/data/" ++ k, body⟩).1.store ∧
      (∀ j, j ≠ k →
        (deleteDataHandler σ ⟨method, "/data/" ++ k, body⟩).1.store.lookup j = σ.store.lookup j) ∧
      (deleteDataHandler σ ⟨method, "/data/" ++ k, body⟩).1.store.entries.length + 1
        = σ.store.entries.length) ∧
    (k ∉ σ.store →
      (deleteDataHandler σ ⟨method, "/data/" ++ k, body⟩).2.status = 404 ∧
      (deleteDataHandler σ ⟨method, "/data/" ++ k, body⟩).1.store = σ.store ∧
      (deleteDataHandler σ ⟨method, "/data/" ++ k, body⟩).1.store.entries.length
        = σ.store.entries.length) := by
  constructor
  · intro hk
    obtain ⟨hs, hr⟩ := deleteDataHandler_present σ ⟨method, "/data/" ++ k, body⟩ k rfl hk
    rw [hs, hr]
    refine ⟨rfl, ?_, ?_, ?_⟩
    · simp [AList.mem_erase]
    · intro j hj
      exact AList.lookup_erase_ne hj
    · have hk2 : k ∈ σ.store.keys := AList.mem_keys.1 hk
      rw [length_erase, if_pos hk2]
      have : 0 < σ.store.keys.length := List.length_pos_of_mem hk2
      rw [length_entries_eq_keys]
      omega
  · intro hk
    obtain ⟨hs, hr⟩ := deleteDataHandler_absent σ ⟨method, "/data/" ++ k, body⟩ k rfl hk
    rw [hs, hr]
    exact ⟨rfl, rfl, rfl⟩

theorem deleteDataHandler_delete_witness :
    (deleteDataHandler (postDataLocked NewServer abMap) ⟨"DELETE", "/data/" ++ "a", ""⟩).2.status
      = 200 ∧
    (deleteDataHandler (postDataLocked NewServer abMap) ⟨"DELETE", "/data/" ++ "z", ""⟩).2.status
      = 404 :=
  ⟨((deleteDataHandler_delete (postDataLocked NewServer abMap) "DELETE" "" "a").1
      (by decide)).1,
   ((deleteDataHandler_delete (postDataLocked NewServer abMap) "DELETE" "" "z").2
      (by decide)).1⟩

/-- C1 fails as stated: on a state whose counter holds the largest `int`, a
`postDataHandler` call with a decoded (empty) body leaves the counter at the
smallest `int`, which is not the old counter plus 1. -/
theorem postDataHandler_counter_wraps :
    (postDataHandler decodeEmpty saturated ⟨"POST", "/data", ""⟩).1.counter = minInt ∧
    (postDataHandler decodeEmpty saturated ⟨"POST", "/data", ""⟩).1.counter
      ≠ saturated.counter + 1 := by
  decide

/-- C1, amended: for every state and every decoded mapping `body` (possibly
empty), after `postDataHandler` every key of `body` maps to its value in
`body`, every key not in `body` keeps the value (or absence) it had, the reply
is 201, and the counter is the 64-bit wrap-around of the old counter plus 1,
whatever the number of entries: it is the old counter plus exactly 1 whenever
the old counter is below the largest `int`. -/
theorem postDataHandler_putMany (decode : String → Option GoMap) (σ : State) (r : Request)
    (body : GoMap) (hdec : decode r.body = some body) :
    (∀ k v, body.lookup k = some v →
      (postDataHandler decode σ r).1.store.lookup k = some v) ∧
    (∀ k, k ∉ body →
      (postDataHandler decode σ r).1.store.lookup k = σ.store.lookup k) ∧
    (postDataHandler decode σ r).2.status = 201 ∧
    (postDataHandler decode σ r).1.counter = wrapInt (σ.counter + 1) ∧
    (σ.counter < maxInt → (postDataHandler decode σ r).1.counter = σ.counter + 1) := by
  rw [postDataHandler_decoded decode σ r body hdec]
  refine ⟨?_, ?_, rfl, rfl, ?_⟩
  · intro k v h
    show (postDataLocked σ body).store.lookup k = some v
    rw [postDataLocked_store]
    exact lookup_insertAll_of_mem _ _ _ _ h
  · intro k h
    show (postDataLocked σ body).store.lookup k = _
    rw [postDataLocked_store]
    exact lookup_insertAll_of_not_mem _ _ _ h
  · intro h
    exact incr_val σ.srv.requests h

theorem postDataHandler_putMany_witness :
    (postDataHandler decodeAB NewServer ⟨"POST", "/data", ""⟩).1.store.lookup "a" = some "1" ∧
    (postDataHandler decodeAB NewServer ⟨"POST", "/data", ""⟩).1.counter
      = NewServer.counter + 1 :=
  ⟨(postDataHandler_putMany decodeAB NewServer ⟨"POST", "/data", ""⟩ abMap rfl).1 "a" "1"
      (by decide),
   (postDataHandler_putMany decodeAB NewServer ⟨"POST", "/data", ""⟩ abMap rfl).2.2.2.2
      (by decide)⟩

/-- C8: after a `postDataHandler` call with a decoded body, the size of the
store is the number of distinct keys in the union of the old key set and the
key set of the body, which is the old size plus the number of keys of the body
that were not present.  When every key of the body was already present, the
size is unchanged and each such key maps to the new value. -/
theorem postDataHandler_size (decode : String → Option GoMap) (σ : State) (r : Request)
    (body : GoMap) (hdec : decode r.body = some body) :
    (postDataHandler decode σ r).1.store.entries.length
      = (σ.store.keys.toFinset ∪ body.keys.toFinset).card ∧
    (postDataHandler decode σ r).1.store.entries.length
      = σ.store.entries.length + countNew σ.store body.entries ∧
    ((∀ k ∈ body.keys, k ∈ σ.store.keys) →
      (postDataHandler decode σ r).1.store.entries.length = σ.store.entries.length ∧
      ∀ k v, body.lookup k = some v →
        (postDataHandler decode σ r).1.store.lookup k = some v) := by
  rw [postDataHandler_decoded decode σ r body hdec]
  show (postDataLocked σ body).store.entries.length = _ ∧
    (postDataLocked σ body).store.entries.length = _ ∧
    (_ → (postDataLocked σ body).store.entries.length = _ ∧
      ∀ k v, _ → (postDataLocked σ body).store.lookup k = some v)
  rw [postDataLocked_store]
  refine ⟨?_, length_insertAll _ _ body.nodupKeys, ?_⟩
  · rw [← card_keys_toFinset, keys_toFinset_insertAll]; rfl
  · intro hall
    refine ⟨?_, fun k v h => lookup_insertAll_of_mem _ _ _ _ h⟩
    rw [length_insertAll _ _ body.nodupKeys, countNew_eq_zero _ _ hall, Nat.add_zero]

theorem postDataHandler_size_witness :
    (postDataHandler decodeA9 scenarioPost.1 ⟨"POST", "/data", ""⟩).1.store.entries.length
      = scenarioPost.1.store.entries.length ∧
    (postDataHandler decodeA9 scenarioPost.1 ⟨"POST", "/data", ""⟩).1.store.lookup "a"
      = some "9" :=
  ⟨((postDataHandler_size decodeA9 scenarioPost.1 ⟨"POST", "/data", ""⟩
      (AList.singleton "a" "9") rfl).2.2 (by decide)).1,
   ((postDataHandler_size decodeA9 scenarioPost.1 ⟨"POST", "/data", ""⟩
      (AList.singleton "a" "9") rfl).2.2 (by decide)).2 "a" "9" (by decide)⟩

/-- C2 fails as stated: on a state whose counter holds the largest `int`,
`getDataHandler` leaves the counter at the smallest `int`, not at the old
counter plus 1. -/
theorem getDataHandler_counter_wraps :
    (getDataHandler saturated ⟨"GET", "/data", ""⟩).1.counter = minInt ∧
    (getDataHandler saturated ⟨"GET", "/data", ""⟩).1.counter ≠ saturated.counter + 1 := by
  decide

/-- C2, amended: in every state whose store is an allocated map object,
`getDataHandler` builds a map object `dataCopy` with exactly the keys and
values of the store at the time of the call and encodes it in its reply; the
store is left unchanged; the counter becomes the 64-bit wrap-around of the old
counter plus 1, which is the old counter plus exactly 1 whenever the old
counter is below the largest `int`.  The copy is independent of the store:
whatever is done to the copy, a following `getDataHandler` gives the same
reply; and no sequence of later calls (post, get, delete, stats) changes the
copy, so that encoding it after them gives the same reply. -/
theorem getDataHandler_snapshot (decode : String → Option GoMap) (σ : State) (r : Request)
    (hwf : σ.WF) :
    (getDataHandler σ r).1 = (getDataLocked σ).1 ∧
    (getDataHandler σ r).2.body
      = Body.jsonMap ((getDataLocked σ).1.heap.cell (getDataLocked σ).2) ∧
    ((getDataLocked σ).1.heap.cell (getDataLocked σ).2).entries.Perm σ.store.entries ∧
    (∀ k, ((getDataLocked σ).1.heap.cell (getDataLocked σ).2).lookup k = σ.store.lookup k) ∧
    (getDataHandler σ r).1.store = σ.store ∧
    (getDataHandler σ r).1.counter = wrapInt (σ.counter + 1) ∧
    (σ.counter < maxInt → (getDataHandler σ r).1.counter = σ.counter + 1) ∧
    (∀ (m : GoMap) (r2 : Request),
      (getDataHandler ((getDataLocked σ).1.mutate (getDataLocked σ).2 m) r2).2
        = (getDataHandler (getDataLocked σ).1 r2).2) ∧
    (∀ cs : List Call,
      (runCalls decode (getDataLocked σ).1 cs).heap.cell (getDataLocked σ).2
        = (getDataLocked σ).1.heap.cell (getDataLocked σ).2 ∧
      getDataEncode (runCalls decode (getDataLocked σ).1 cs) (getDataLocked σ).2
        = (getDataHandler σ r).2) := by
  have hwf1 : (getDataLocked σ).1.WF := by
    show (getDataLocked σ).1.srv.data < (getDataLocked σ).1.heap.next
    rw [getDataLocked_next, getDataLocked_data]
    exact Nat.lt_succ_of_lt hwf
  have hne : (getDataLocked σ).1.srv.data ≠ (getDataLocked σ).2 := by
    rw [getDataLocked_data, getDataLocked_ref]
    exact Nat.ne_of_lt hwf
  have hframe : ∀ cs : List Call,
      (runCalls decode (getDataLocked σ).1 cs).heap.cell (getDataLocked σ).2
        = (getDataLocked σ).1.heap.cell (getDataLocked σ).2 := by
    intro cs
    refine (runCalls_frame decode (getDataLocked σ).1 cs).2.2 _ ?_ (Ne.symm hne)
    rw [getDataLocked_next, getDataLocked_ref]
    exact Nat.lt_succ_self _
  refine ⟨rfl, rfl, ?_, ?_, getDataLocked_store σ hwf, rfl,
    fun h => incr_val σ.srv.requests h, ?_, ?_⟩
  · rw [getDataLocked_copy σ hwf]
    exact perm_insertAll_empty σ.store
  · intro k
    rw [getDataLocked_copy σ hwf]
    exact lookup_insertAll_empty σ.store k
  · intro m r2
    rw [getDataHandler_reply _ r2 (mutate_WF _ _ m hwf1), getDataHandler_reply _ r2 hwf1,
      mutate_store _ _ m hne]
  · intro cs
    refine ⟨hframe cs, ?_⟩
    show getDataEncode _ _ = getDataEncode _ _
    unfold getDataEncode
    rw [hframe cs]
    rfl

theorem getDataHandler_snapshot_witness :
    (getDataHandler (postDataLocked NewServer abMap) ⟨"GET", "/data", ""⟩).1.store
      = (postDataLocked NewServer abMap).store ∧
    (getDataHandler (postDataLocked NewServer abMap) ⟨"GET", "/data", ""⟩).1.counter
      = (postDataLocked NewServer abMap).counter + 1 :=
  ⟨(getDataHandler_snapshot decodeAB (postDataLocked NewServer abMap) ⟨"GET", "/data", ""⟩
      (by decide)).2.2.2.2.1,
   (getDataHandler_snapshot decodeAB (postDataLocked NewServer abMap) ⟨"GET", "/data", ""⟩
      (by decide)).2.2.2.2.2.2.1 (by decide)⟩

/-- C5 fails as stated: starting from a counter that holds the largest `int`,
one `deleteDataHandler` call (of an absent key) leaves the counter at the
smallest `int`: it is not the old counter plus 1, and it has decreased. -/
theorem counter_wraps_after_call :
    (runCalls decodeEmpty saturated [Call.delete ⟨"DELETE", "/data/z", ""⟩]).counter
      ≠ saturated.counter + 1 ∧
    (runCalls decodeEmpty saturated [Call.delete ⟨"DELETE", "/data/z", ""⟩]).counter
      < saturated.counter := by
  decide

/-- C5, amended: for every starting state and every finite sequence of M calls,
each a `postDataHandler` whose body decodes, a `getDataHandler` or a
`deleteDataHandler` (key found or not), in any order, the counter after the
sequence is the 64-bit wrap-around of the old counter plus M; when the old
counter plus M does not exceed the largest `int`, it is the old counter plus M
and has not decreased.  A `deleteDataHandler` call adds exactly 1, also when
the key is absent, whenever the old counter is below the largest `int`. -/
theorem counter_after_calls (decode : String → Option GoMap) (σ : State) (cs : List Call)
    (hall : ∀ c ∈ cs, c.counted decode = true) :
    (runCalls decode σ cs).counter = wrapInt (σ.counter + (cs.length : Nat)) ∧
    (σ.counter + (cs.length : Nat) ≤ maxInt →
      (runCalls decode σ cs).counter = σ.counter + (cs.length : Nat) ∧
      σ.counter ≤ (runCalls decode σ cs).counter) ∧
    (∀ r : Request, σ.counter < maxInt →
      (deleteDataHandler σ r).1.counter = σ.counter + 1) := by
  have hcount : cs.countP (fun c => c.counted decode) = cs.length :=
    List.countP_eq_length.2 hall
  have hrun := runCalls_counter decode σ cs
  rw [hcount] at hrun
  refine ⟨hrun, fun hle => ?_, fun r h => incr_val σ.srv.requests h⟩
  have hlo : minInt ≤ σ.counter := σ.srv.requests.lo
  have heq : (runCalls decode σ cs).counter = σ.counter + (cs.length : Nat) := by
    rw [hrun]
    exact wrapInt_of_le _ (by unfold minInt at *; omega) hle
  exact ⟨heq, by rw [heq]; omega⟩

theorem counter_after_calls_witness :
    (runCalls decodeAB NewServer
      [Call.post ⟨"POST", "/data", ""⟩, Call.get ⟨"GET", "/data", ""⟩,
       Call.delete ⟨"DELETE", "/data/z", ""⟩]).counter = NewServer.counter + (3 : Nat) :=
  ((counter_after_calls decodeAB NewServer
      [Call.post ⟨"POST", "/data", ""⟩, Call.get ⟨"GET", "/data", ""⟩,
       Call.delete ⟨"DELETE", "/data/z", ""⟩] (by decide)).2.1 (by decide)).1

/-- C6 fails as stated: in the example scenario the counter after the
`postDataHandler` call and the `getDataHandler` call is 2, not 1, because
`getDataHandler` increments it too; after the delete of "a" it is 3, not 2;
`statsHandler` then reports requests 3, not 2; and after the delete of "z" the
counter is 4, not 3. -/
theorem scenario_counter_differs :
    scenarioGet.1.counter = 2 ∧ scenarioGet.1.counter ≠ 1 ∧
    scenarioDeleteA.1.counter = 3 ∧ scenarioDeleteA.1.counter ≠ 2 ∧
    scenarioStats.2.body
      ≠ Body.jsonInts (AList.insert "data_size" 1 (AList.insert "requests" 2 ∅)) ∧
    scenarioDeleteZ.1.counter = 4 ∧ scenarioDeleteZ.1.counter ≠ 3 := by
  refine ⟨by decide, by decide, by decide, by decide, ?_, by decide, by decide⟩
  intro h
  have h1 : scenarioStats.2.body
      = Body.jsonInts (AList.insert "data_size" 1 (AList.insert "requests" 3 ∅)) := rfl
  rw [h1] at h
  have h2 := congrArg (AList.lookup "requests") (Body.jsonInts.inj h)
  revert h2
  decide

/-- C6, amended: starting from the state built by `NewServer` (empty mapping,
counter 0), a post of the mapping a ↦ 1, b ↦ 2 leaves the counter at 1; the
following get replies with exactly that mapping and leaves the counter at 2;
then the delete of "a" replies 200 with counter 3 and size 1; then stats
replies requests 3 and data_size 1 and leaves the counter at 3; then the
delete of "z" replies 404 with counter 4 and size 1. -/
theorem scenario_trace :
    NewServer.store = ∅ ∧ NewServer.counter = 0 ∧
    scenarioPost.2.status = 201 ∧ scenarioPost.1.counter = 1 ∧
    scenarioGet.2.body = Body.jsonMap abMap ∧
    abMap.entries = [⟨"b", "2"⟩, ⟨"a", "1"⟩] ∧
    scenarioGet.1.counter = 2 ∧
    scenarioDeleteA.2.status = 200 ∧ scenarioDeleteA.1.counter = 3 ∧
    scenarioDeleteA.1.heap.len scenarioDeleteA.1.srv.data = 1 ∧
    scenarioDeleteA.1.store.lookup "b" = some "2" ∧
    scenarioStats.2.body
      = Body.jsonInts (AList.insert "data_size" 1 (AList.insert "requests" 3 ∅)) ∧
    scenarioStats.1.counter = 3 ∧
    scenarioDeleteZ.2.status = 404 ∧ scenarioDeleteZ.1.counter = 4 ∧
    scenarioDeleteZ.1.heap.len scenarioDeleteZ.1.srv.data = 1 := by
  refine ⟨rfl, by decide, by decide, by decide, rfl, by decide, by decide, by decide, by decide,
    by decide, by decide, rfl, by decide, by decide, by decide, by decide⟩

/-- C10 fails on the code: `main` registers only the patterns "/data" and
"/stats", so a request for "/data/" followed by any key `k` matches no
registered pattern, `deleteDataHandler` is not run and the state is unchanged.
In particular, on a store that holds the key "a", the request for "/data/a" is
answered 404 by the mux and "a" is still present with the counter unchanged,
whereas `deleteDataHandler` itself would have answered 200 and removed it. -/
theorem serve_delete_unrouted (decode : String → Option GoMap) (σ : State)
    (method k body : String) :
    routes.find? (fun p => patternMatches p.1 ("/data/" ++ k)) = none ∧
    (serve decode σ ⟨method, "/data/" ++ k, body⟩).1 = σ ∧
    serve decodeAB scenarioPost.1 ⟨"DELETE", "/data/a", ""⟩
      = (scenarioPost.1, httpError "404 page not found" StatusNotFound) ∧
    (serve decodeAB scenarioPost.1 ⟨"DELETE", "/data/a", ""⟩).2.status = 404 ∧
    (serve decodeAB scenarioPost.1 ⟨"DELETE", "/data/a", ""⟩).1.store.lookup "a" = some "1" ∧
    (serve decodeAB scenarioPost.1 ⟨"DELETE", "/data/a", ""⟩).1.counter
      = scenarioPost.1.counter ∧
    (deleteDataHandler scenarioPost.1 ⟨"DELETE", "/data/a", ""⟩).2.status = 200 ∧
    (deleteDataHandler scenarioPost.1 ⟨"DELETE", "/data/a", ""⟩).1.store.lookup "a" = none := by
  have hfind : ∀ j : String, routes.find? (fun p => patternMatches p.1 ("/data/" ++ j)) = none := by
    intro j
    simp [routes, patternMatches, String.ext_iff, String.data_append]
  have hserve : ∀ (d : String → Option GoMap) (τ : State) (a j b : String),
      serve d τ ⟨a, "/data/" ++ j, b⟩ = (τ, httpError "404 page not found" StatusNotFound) := by
    intro d τ a j b
    show (match routes.find? (fun p => patternMatches p.1 ("/data/" ++ j)) with
      | some p => p.2.handle d τ ⟨a, "/data/" ++ j, b⟩
      | none => (τ, httpError "404 page not found" StatusNotFound)) = _
    rw [hfind j]
  have hconc : serve decodeAB scenarioPost.1 ⟨"DELETE", "/data/a", ""⟩
      = (scenarioPost.1, httpError "404 page not found" StatusNotFound) :=
    hserve decodeAB scenarioPost.1 "DELETE" "a" ""
  refine ⟨hfind k, ?_, hconc, ?_, ?_, ?_, by decide, by decide⟩
  · rw [hserve]
  · rw [hconc]; rfl
  · rw [hconc]; decide
  · rw [hconc]

/-- C7 fails as stated: for N = 2^63 - 1 empty mappings (pairwise disjoint),
the N `postDataHandler` calls followed by one `getDataHandler` leave the
counter at the smallest `int`, not at N + 1. -/
theorem disjoint_batches_counter_wraps :
    (List.replicate 9223372036854775807 (∅ : GoMap)).Pairwise AList.Disjoint ∧
    (List.replicate 9223372036854775807 (⟨"POST", "/data", ""⟩ : Request)).map
        (fun q => decodeEmpty q.body)
      = (List.replicate 9223372036854775807 (∅ : GoMap)).map some ∧
    (getDataHandler
        (runCalls decodeEmpty NewServer
          ((List.replicate 9223372036854775807 (⟨"POST", "/data", ""⟩ : Request)).map Call.post))
        ⟨"GET", "/data", ""⟩).1.counter
      ≠ ((List.replicate 9223372036854775807 (∅ : GoMap)).length : Int) + 1 := by
  refine ⟨?_, ?_, ?_⟩
  · apply List.pairwise_of_forall_mem_list
    intro a ha b _ k hk
    rw [List.eq_of_mem_replicate ha] at hk
    exact absurd hk (List.not_mem_nil k)
  · rw [List.map_replicate, List.map_replicate]; rfl
  · rw [getDataHandler_counter, runCalls_counter, List.map_replicate, List.countP_replicate,
      List.length_replicate]
    decide

/-- C7, amended: let `bodies` be N mappings with pairwise disjoint key sets,
and let N `postDataHandler` calls, whose bodies decode to these mappings in
any order (`order` is any permutation of `bodies`), be served one after
another on the state built by `NewServer`, followed by one `getDataHandler`.
The mapping in the reply is the union of all entries: a key maps to a value in
it exactly when it does in one of the mappings; its size is the number of
distinct keys, which is the sum of the sizes of the mappings.  The counter is
the 64-bit wrap-around of N + 1, which is N + 1 whenever N + 1 does not exceed
the largest `int`. -/
theorem disjoint_batches_any_order (decode : String → Option GoMap)
    (bodies order : List GoMap) (reqs : List Request) (r : Request)
    (hperm : order.Perm bodies)
    (hdec : reqs.map (fun q => decode q.body) = order.map some)
    (hdisj : bodies.Pairwise AList.Disjoint) :
    ∃ m : GoMap,
      (getDataHandler (runCalls decode NewServer (reqs.map Call.post)) r).2.body
        = Body.jsonMap m ∧
      (∀ k v, m.lookup k = some v ↔ ∃ b ∈ bodies, b.lookup k = some v) ∧
      m.entries.length = (allKeys bodies).card ∧
      m.entries.length = (bodies.map (fun b => b.entries.length)).sum ∧
      (getDataHandler (runCalls decode NewServer (reqs.map Call.post)) r).1.counter
        = wrapInt ((bodies.length : Int) + 1) ∧
      ((bodies.length : Int) + 1 ≤ maxInt →
        (getDataHandler (runCalls decode NewServer (reqs.map Call.post)) r).1.counter
          = (bodies.length : Int) + 1) := by
  have hdisj2 : order.Pairwise AList.Disjoint :=
    (hperm.pairwise_iff (fun h => disjoint_symmetric h)).2 hdisj
  have hwf : (runCalls decode NewServer (reqs.map Call.post)).WF :=
    runCalls_WF decode NewServer _ NewServer_WF
  have hstore : (runCalls decode NewServer (reqs.map Call.post)).store = unionAll ∅ order := by
    rw [runCalls_post decode order reqs NewServer hdec, foldl_postDataLocked_store]
    rfl
  have hlen : reqs.length = bodies.length := by
    have h := congrArg List.length hdec
    rw [List.length_map, List.length_map] at h
    rw [h, hperm.length_eq]
  have hcnt : (getDataHandler (runCalls decode NewServer (reqs.map Call.post)) r).1.counter
      = wrapInt ((bodies.length : Int) + 1) := by
    rw [getDataHandler_counter, runCalls_counter,
      List.countP_eq_length.2 (Call.counted_post_of_decoded decode order reqs hdec),
      List.length_map, hlen, wrapInt_wrapInt_add]
    show wrapInt (0 + (bodies.length : Int) + 1) = _
    rw [Int.zero_add]
  have hsize : (unionAll ∅ order).entries.length = (allKeys bodies).card := by
    rw [← card_keys_toFinset, keys_toFinset_unionAll, allKeys_perm order bodies hperm]
    simp
  refine ⟨insertAll ∅ (unionAll ∅ order).entries, ?_, ?_, ?_, ?_, hcnt, ?_⟩
  · rw [getDataHandler_reply _ r hwf, hstore]
  · intro k v
    rw [lookup_insertAll_empty, lookup_unionAll order hdisj2 ∅ k v]
    constructor
    · rintro (⟨b, hb, hv⟩ | ⟨_, hv⟩)
      · exact ⟨b, hperm.mem_iff.1 hb, hv⟩
      · simp at hv
    · rintro ⟨b, hb, hv⟩
      exact Or.inl ⟨b, hperm.mem_iff.2 hb, hv⟩
  · rw [(perm_insertAll_empty _).length_eq, hsize]
  · rw [(perm_insertAll_empty _).length_eq,
      length_unionAll order hdisj2 ∅ (fun _ _ _ _ h => absurd h (List.not_mem_nil _)),
      (hperm.map (fun b => b.entries.length)).sum_eq]
    simp
  · intro hle
    rw [hcnt]
    exact wrapInt_of_le _ (by unfold minInt; omega) hle

theorem disjoint_batches_any_order_witness :
    ∃ m : GoMap,
      (getDataHandler (runCalls decodeSplit NewServer
          ([⟨"POST", "/data", "second"⟩, ⟨"POST", "/data", "first"⟩].map Call.post))
        ⟨"GET", "/data", ""⟩).2.body = Body.jsonMap m ∧
      (∀ k v, m.lookup k = some v ↔
        ∃ b ∈ ([AList.singleton "a" "1", AList.singleton "b" "2"] : List GoMap),
          b.lookup k = some v) ∧
      m.entries.length = 2 :=
  match disjoint_batches_any_order decodeSplit
      [AList.singleton "a" "1", AList.singleton "b" "2"]
      [AList.singleton "b" "2", AList.singleton "a" "1"]
      [⟨"POST", "/data", "second"⟩, ⟨"POST", "/data", "first"⟩] ⟨"GET", "/data", ""⟩
      (List.Perm.swap _ _ _) rfl (by simp [AList.Disjoint]) with
  | ⟨m, h1, h2, _, h4, _⟩ => ⟨m, h1, h2, h4⟩

end KVServer
